import Mathlib

/-!
Verification of the configuration-driven tabular preprocessing pipeline
(cleaning, outlier removal, encoding, imputation and orchestration).

The pandas DataFrame is modelled as an ordered association list of named
columns; each column is a list of cell values.  A cell is a rational
number, a text value, or the missing marker (pandas NaN/None).  Machine
floats are modelled by rationals; per-column dtype is modelled by the
predicate "no text cell occurs" (an all-missing column is numeric, as a
pandas all-NaN column has float dtype).
-/

inductive Value where
  | num (q : ℚ)
  | str (s : String)
  | na
deriving DecidableEq

abbrev Col := List Value

abbrev Table := List (String × Col)

def isNA : Value → Bool
  | .na => true
  | _ => false

/-- The column of a table under a name: `self.data[column]`; `none` models
the pandas KeyError on a missing label (first matching label wins). -/
def getCol (t : Table) (name : String) : Option Col :=
  (t.find? (fun p => p.1 = name)).map (fun p => p.2)

/-- `column in self.data.columns`. -/
def hasCol (t : Table) (name : String) : Bool :=
  t.any (fun p => p.1 = name)

/-- In-place single-column assignment `self.data[column] = c`. -/
def setCol (t : Table) (name : String) (c : Col) : Table :=
  t.map (fun p => if p.1 = name then (p.1, c) else p)

/-- The non-missing numeric cells of a column, in row order (what the
pandas skipna reductions mean/median/quantile operate on). -/
def numsOf (c : Col) : List ℚ :=
  c.filterMap (fun v => match v with | .num q => some q | _ => none)

/-- `pd.api.types.is_numeric_dtype`: a column holds numeric dtype exactly
when no text cell occurs (an all-missing column is float dtype). -/
def numericDtype (c : Col) : Bool :=
  c.all (fun v => match v with | .str _ => false | _ => true)

/-- Number of missing cells of a column (`isna().sum()`). -/
def countNA (c : Col) : ℕ :=
  (c.filter isNA).length

/-- `self.data.isna().mean() * 100` for one column: the missing
percentage on the 0–100 scale.  (pandas yields NaN for a zero-row
column; we return 0, which is never above a nonnegative threshold,
matching the "not dropped" outcome.) -/
def missingPct (c : Col) : ℚ :=
  if c.length = 0 then 0 else (countNA c : ℚ) / (c.length : ℚ) * 100

/-- `DataCleaner.drop_na_columns`: keeps exactly the columns whose
missing percentage does not strictly exceed `threshold`.  The source
collects the offending labels and drops them by name; as pandas column
labels are unique, that coincides with this per-column filter. -/
def DataCleaner.drop_na_columns (t : Table) (threshold : ℚ) : Table :=
  t.filter (fun p => decide (missingPct p.2 ≤ threshold))

/-- `DataCleaner.drop_columns`: drops each listed column present in the
table; absent names are silently ignored. -/
def DataCleaner.drop_columns (t : Table) (columns : List String) : Table :=
  t.filter (fun p => !(columns.contains p.1))

/-- Sample mean of the non-missing values (`Series.mean()` on a numeric
column); `none` models the NaN produced on an all-missing column. -/
def meanQ (xs : List ℚ) : Option ℚ :=
  if xs.length = 0 then none else some (xs.sum / (xs.length : ℚ))

def insertLe (x : ℚ) : List ℚ → List ℚ
  | [] => [x]
  | y :: ys => if x ≤ y then x :: y :: ys else y :: insertLe x ys

/-- Ascending insertion sort (the order pandas reductions sort by). -/
def sortQ (xs : List ℚ) : List ℚ :=
  xs.foldr insertLe []

/-- `Series.median()` over the non-missing values: middle element of the
sorted list, or the average of the two middle elements; `none` models
the NaN produced on an all-missing column. -/
def medianQ (xs : List ℚ) : Option ℚ :=
  let s := sortQ xs
  let n := s.length
  if n = 0 then none
  else if n % 2 = 1 then some (s.getD (n / 2) 0)
  else some ((s.getD (n / 2 - 1) 0 + s.getD (n / 2) 0) / 2)

/-- `Series.fillna(v)` where `v` came from a numeric reduction: a missing
reduction result (NaN, modelled `none`) fills nothing, so an all-missing
column is returned unchanged. -/
def fillnaQ (c : Col) (v : Option ℚ) : Col :=
  match v with
  | none => c
  | some q => c.map (fun w => if isNA w then Value.num q else w)

/-- `Series.fillna(v)` for an arbitrary non-missing fill value. -/
def fillnaV (c : Col) (m : Value) : Col :=
  c.map (fun w => if isNA w then m else w)

/-- `Series.mode()[0]` as an option: the most frequent non-missing value
(`none` models the IndexError/KeyError raised by `[0]` when the column
has no non-missing value, so the mode Series is empty).  pandas breaks
frequency ties by sorted order; we keep the first-encountered maximum,
which agrees whenever the mode is unique. -/
def modeValue (c : Col) : Option Value :=
  let vs := c.filter (fun v => !(isNA v))
  vs.foldl
    (fun best x =>
      match best with
      | none => some x
      | some b => if vs.count x > vs.count b then some x else some b)
    none

/-- Floor of a rational as an integer (explicit floor division of the
numerator by the denominator, agreeing with the mathematical floor). -/
def ratFloor (q : ℚ) : ℤ :=
  Int.fdiv q.num (q.den : ℤ)

/-- Ceiling of a rational as an integer. -/
def ratCeil (q : ℚ) : ℤ :=
  -ratFloor (-q)

/-- pandas linear-interpolation quantile (the `Series.quantile` default)
over the non-missing values: for sorted values `s` of length `n`, the
rank is `h = p·(n−1)` and the result interpolates between `s[⌊h⌋]` and
`s[⌈h⌉]`; `none` models the NaN produced on an all-missing column. -/
def quantile (xs : List ℚ) (p : ℚ) : Option ℚ :=
  let s := sortQ xs
  if s.length = 0 then none
  else
    let h : ℚ := p * ((s.length : ℚ) - 1)
    let lo := s.getD (ratFloor h).toNat 0
    let hi := s.getD (ratCeil h).toNat 0
    some (lo + (h - (ratFloor h : ℚ)) * (hi - lo))

/-- Modelled from the spec: the body of
`OutlierDetector.detect_iqr_outliers` after its numeric-dtype check is
elided in the source (a placeholder comment stands in for it), so the
detection itself follows the spec's words: with `Q1`/`Q3` the first and
third quartiles and `IQR = Q3 − Q1`, the lower outliers are the values
below `Q1 − t·IQR` and the upper outliers those above `Q3 + t·IQR`.
This function returns the concatenated lower and upper outlier values
(the source returns two value Series that are then concatenated). -/
def iqrOutlierVals (xs : List ℚ) (t : ℚ) : List ℚ :=
  match quantile xs (1/4), quantile xs (3/4) with
  | some q1, some q3 =>
      xs.filter (fun x => decide (x < q1 - t * (q3 - q1))) ++
        xs.filter (fun x => decide (q3 + t * (q3 - q1) < x))
  | _, _ => []

/-- `OutlierDetector.detect_zscore_outliers`: the values whose z-score
`|x − mean| / std` (sample std, ddof = 1) exceeds `t`.  Square roots
are irrational, so the test is modelled by the equivalent squared
comparison `(x − mean)² > t²·var` (equivalent for `t ≥ 0`); with at
most one value the sample std is NaN and nothing is flagged. -/
def zscoreOutliers (xs : List ℚ) (t : ℚ) : List ℚ :=
  if xs.length ≤ 1 then []
  else
    let m := xs.sum / (xs.length : ℚ)
    let v := (xs.map (fun x => (x - m) ^ 2)).sum / ((xs.length : ℚ) - 1)
    xs.filter (fun x => decide (t ^ 2 * v < (x - m) ^ 2))

/-- `Series.isin(outlier_values)` for one cell: a missing or text cell
is never flagged; a numeric cell is flagged when its value occurs among
the outlier values. -/
def vIsin (v : Value) (outs : List ℚ) : Bool :=
  match v with
  | .num q => outs.contains q
  | _ => false

/-- Boolean-mask row selection `self.data[mask]` applied to one column:
keeps the cells at the positions where the mask is true. -/
def applyMask : List Bool → Col → Col
  | b :: ms, x :: xs => if b then x :: applyMask ms xs else applyMask ms xs
  | _, _ => []

/-- Boolean-mask row selection applied to a whole table. -/
def filterRowsBy (t : Table) (keep : List Bool) : Table :=
  t.map (fun p => (p.1, applyMask keep p.2))

/-- `OutlierDetector.remove_outliers`: dispatches on the method name and
drops the rows whose value in `column` is among the detected outlier
values (an `isin` test on the column).  A missing column label is a
pandas KeyError; a non-numeric column is the detectors' ValueError.
The `iforest` and `robust_cov` branches call opaque randomized sklearn
estimators, which are external library code and are not modelled (left
as the identity here; no theorem relies on those two branches).  The
source has **no else branch**: any other method name silently returns
the data unchanged. -/
def OutlierDetector.remove_outliers (t : Table) (column method : String) (threshold : ℚ) :
    Except String Table :=
  if method = "iqr" then
    match getCol t column with
    | none => .error "KeyError"
    | some c =>
      if numericDtype c then
        .ok (filterRowsBy t (c.map (fun v => !(vIsin v (iqrOutlierVals (numsOf c) threshold)))))
      else .error "Column must be numeric"
  else if method = "zscore" then
    match getCol t column with
    | none => .error "KeyError"
    | some c =>
      if numericDtype c then
        .ok (filterRowsBy t (c.map (fun v => !(vIsin v (zscoreOutliers (numsOf c) threshold)))))
      else .error "Column must be numeric"
  else if method = "iforest" then .ok t
  else if method = "robust_cov" then .ok t
  else .ok t

/-- `DataImputation.fill_median`: errors when the column is absent, then
when it is not numeric; otherwise fills the missing cells with the
column median (a NaN median on an all-missing column fills nothing). -/
def DataImputation.fill_median (t : Table) (column : String) : Except String Table :=
  match getCol t column with
  | none => .error "Column not found in the dataset"
  | some c =>
    if numericDtype c then .ok (setCol t column (fillnaQ c (medianQ (numsOf c))))
    else .error "Column must be numeric for median imputation"

/-- `DataImputation.fill_mean`: as `fill_median` with the mean. -/
def DataImputation.fill_mean (t : Table) (column : String) : Except String Table :=
  match getCol t column with
  | none => .error "Column not found in the dataset"
  | some c =>
    if numericDtype c then .ok (setCol t column (fillnaQ c (meanQ (numsOf c))))
    else .error "Column must be numeric for mean imputation"

/-- `DataImputation.fill_mode`: errors when the column is absent; the
`mode()[0]` subscript raises when the mode Series is empty (column with
no non-missing value), modelled by the `none` case of `modeValue`. -/
def DataImputation.fill_mode (t : Table) (column : String) : Except String Table :=
  match getCol t column with
  | none => .error "Column not found in the dataset"
  | some c =>
    match modeValue c with
    | none => .error "index 0 is out of bounds"
    | some m => .ok (setCol t column (fillnaV c m))

/-- Whether a call raised (the Except carrying a Python exception). -/
def isErr (r : Except String Table) : Bool :=
  match r with
  | .error _ => true
  | .ok _ => false

/-- The string sklearn uses to name a category's indicator column after
the `column_` stem.  Text categories keep their text; the rendering of
numeric and missing categories is simplified (sklearn prints the float),
which is irrelevant to the set-level one-hot properties proved here. -/
def valName : Value → String
  | .str s => s
  | .num q => toString q.num ++ "/" ++ toString q.den
  | .na => "nan"

/-- Numeric content of the cell at row `i` of a column (0 for text or
missing cells), used to sum a row across indicator columns. -/
def numAt (c : Col) (i : ℕ) : ℚ :=
  match c.getD i .na with
  | .num q => q
  | _ => 0

/-- `DataEncoder.encode_categorical`: a missing column is a logged
warning, table unchanged.  `one_hot` drops the original column in place
and appends one indicator column per distinct observed category (we take
the distinct values in `dedup` order; sklearn sorts them — the
set-level properties proved here do not depend on the order).  `label`
replaces the values by small integer codes, one per distinct category
(deterministic, implementation-defined order).  Unknown methods are a
logged warning, table unchanged. -/
def DataEncoder.encode_categorical (t : Table) (column method : String) : Table :=
  match getCol t column with
  | none => t
  | some c =>
    if method = "one_hot" then
      t.filter (fun p => !(p.1 == column)) ++
        c.dedup.map (fun v =>
          (column ++ "_" ++ valName v, c.map (fun w => if w = v then Value.num 1 else Value.num 0)))
    else if method = "label" then
      setCol t column (c.map (fun w => Value.num ((c.dedup.indexOf w : ℕ) : ℚ)))
    else t

/-- `DataEncoder.scale_features`: a missing column or unknown method is
a logged warning, table unchanged.  `minmax` rescales by the column's
own min/max and `robust` by median and interquartile range (both exact
over ℚ; a degenerate denominator is the ℚ division by zero).  The
`standard` scaler divides by a standard deviation, irrational in
general, and is an external sklearn computation left unmodelled (the
table is returned unchanged; no theorem relies on that branch). -/
def DataEncoder.scale_features (t : Table) (column method : String) : Table :=
  match getCol t column with
  | none => t
  | some c =>
    let xs := numsOf c
    if method = "minmax" then
      let mn := (sortQ xs).headD 0
      let mx := (sortQ xs).getLastD 0
      setCol t column (c.map (fun w =>
        match w with
        | .num q => .num ((q - mn) / (mx - mn))
        | w => w))
    else if method = "robust" then
      match medianQ xs, quantile xs (1/4), quantile xs (3/4) with
      | some md, some a, some b =>
        setCol t column (c.map (fun w =>
          match w with
          | .num q => .num ((q - md) / (b - a))
          | w => w))
      | _, _, _ => t
    else t

-- ### Row-wise duplicate removal

abbrev Row := List Value

/-- First-occurrence deduplication with an accumulator of already-seen
rows: a row equal to an earlier one (or to one in `seen`) is dropped. -/
def dropDupSeen (seen : List Row) : List Row → List Row
  | [] => []
  | r :: rs => if r ∈ seen then dropDupSeen seen rs else r :: dropDupSeen (r :: seen) rs

/-- Modelled from the spec: the `drop_duplicates` Cleaner operation the
spec names does not appear in the provided source snapshot of the
Cleaner (the snapshot elides code elsewhere, e.g. the IQR detector
body), so it follows the spec's words: remove rows that are exact
duplicates across all columns, keeping the first occurrence and
preserving the order of surviving rows.  The table is viewed row-wise
here, a row being the list of its cells across all columns. -/
def DataCleaner.drop_duplicates (rows : List Row) : List Row :=
  dropDupSeen [] rows

-- ### Object identity: which stages copy the caller's DataFrame

/-- A heap of DataFrame objects; a Python variable holds a reference
(an index) into it. -/
abbrev Heap := List Table

def heapRead (h : Heap) (r : ℕ) : Table :=
  h.getD r []

def heapWrite (h : Heap) (r : ℕ) (t : Table) : Heap :=
  h.set r t

/-- `DataCleaner.__init__`: `self.data = data.copy()` — allocates a
fresh object holding a copy of the caller's table and returns the new
object's reference together with the grown heap. -/
def DataCleaner.mk (h : Heap) (data : ℕ) : ℕ × Heap :=
  (h.length, h ++ [heapRead h data])

/-- `OutlierDetector.__init__`, `DataEncoder.__init__` and
`DataImputation.__init__`: `self.data = data` — the stage object
aliases the caller's object; nothing is copied. -/
def aliasInit (h : Heap) (data : ℕ) : ℕ × Heap :=
  (data, h)

/-- `drop_na_columns` called on a cleaner object: the `inplace=True`
drop mutates the object `self.data` refers to. -/
def DataCleaner.drop_na_columns_at (h : Heap) (self : ℕ) (θ : ℚ) : Heap :=
  heapWrite h self (DataCleaner.drop_na_columns (heapRead h self) θ)

/-- `encode_categorical` called on an encoder object: the `inplace=True`
column drop and the indicator-column assignments mutate the object
`self.data` refers to. -/
def DataEncoder.encode_categorical_at (h : Heap) (self : ℕ) (column method : String) : Heap :=
  heapWrite h self (DataEncoder.encode_categorical (heapRead h self) column method)

/-- `fill_median` called on an imputer object: the `inplace=True`
fillna mutates the object `self.data` refers to. -/
def DataImputation.fill_median_at (h : Heap) (self : ℕ) (column : String) : Except String Heap :=
  (DataImputation.fill_median (heapRead h self) column).map (heapWrite h self)

/-- `remove_outliers` called on a detector object:
`self.data = self.data[mask]` builds a fresh object and *rebinds*
`self.data` to it — the object previously referred to is not mutated.
Returns the new reference on success. -/
def OutlierDetector.remove_outliers_at (h : Heap) (self : ℕ) (column method : String) (θ : ℚ) :
    Except String (ℕ × Heap) :=
  (OutlierDetector.remove_outliers (heapRead h self) column method θ).map
    (fun t₁ => (h.length, h ++ [t₁]))

-- ### The orchestrated pipeline

/-- One `column: strategy` item of `DataCleaner.impute_values`: an
absent column is a printed warning and the item is skipped; an unknown
strategy raises ValueError; the pandas mean/median of a non-numeric
column raises TypeError; `mode()[0]` raises on a column with no
non-missing value. -/
def imputeOne (t : Table) (column strategy : String) : Except String Table :=
  match getCol t column with
  | none => .ok t
  | some c =>
    if strategy = "mean" then
      if numericDtype c then .ok (setCol t column (fillnaQ c (meanQ (numsOf c))))
      else .error "TypeError: could not compute the mean of a non-numeric column"
    else if strategy = "median" then
      if numericDtype c then .ok (setCol t column (fillnaQ c (medianQ (numsOf c))))
      else .error "TypeError: could not compute the median of a non-numeric column"
    else if strategy = "mode" then
      match modeValue c with
      | none => .error "index 0 is out of bounds"
      | some m => .ok (setCol t column (fillnaV c m))
    else .error "Unknown imputation strategy"

/-- `DataCleaner.impute_values`: applies the column-to-strategy items in
order, stopping at the first raised error. -/
def DataCleaner.impute_values (t : Table) (d : List (String × String)) : Except String Table :=
  d.foldlM (fun acc p => imputeOne acc p.1 p.2) t

/-- Python dict update for one key: an existing entry for the key is
overwritten in place (keys keep first-insertion order), a new key is
appended. -/
def upsert (d : List (String × String)) (k v : String) : List (String × String) :=
  if d.any (fun p => p.1 == k) then d.map (fun p => if p.1 == k then (k, v) else p)
  else d ++ [(k, v)]

/-- Inserting every column of a configuration list under one strategy. -/
def insertAll (d : List (String × String)) (cols : List String) (strat : String) :
    List (String × String) :=
  cols.foldl (fun acc c => upsert acc c strat) d

/-- The orchestrator's merged imputation dict
`{**median-items, **mean-items, **mode-items}`: a later section
overwrites an earlier entry for the same column, so mode beats mean
beats median. -/
def imputationDict (medianCols meanCols modeCols : List String) : List (String × String) :=
  insertAll (insertAll (insertAll [] medianCols "median") meanCols "mean") modeCols "mode"

/-- Dict lookup (first entry under the key; entries are unique). -/
def lookupStrat (d : List (String × String)) (k : String) : Option String :=
  (d.find? (fun p => p.1 == k)).map (fun p => p.2)

/-- The preprocessing configuration.  `none` models a key absent from
the config dict (the source tests `"…" in config`); the three
imputation lists model `config.get("…_imputation", [])`.  An
`outlier_columns` item carries the method and threshold with the
source's `.get` defaults already applied. -/
structure Config where
  drop_columns : Option (List String)
  na_threshold : Option ℚ
  median_imputation : List String
  mean_imputation : List String
  mode_imputation : List String
  outlier_columns : Option (List (String × String × ℚ))
  categorical_encoding : Option (List (String × String))
  feature_scaling : Option (List (String × String))
deriving DecidableEq

/-- The body of the orchestrator's `try` block: the stages in source
order on the working copy, each raised error short-circuiting. -/
def runSteps (cfg : Config) (d : Table) : Except String Table := do
  let d1 := match cfg.drop_columns with
    | some cols => DataCleaner.drop_columns d cols
    | none => d
  let d2 := match cfg.na_threshold with
    | some θ => DataCleaner.drop_na_columns d1 θ
    | none => d1
  let idict := imputationDict cfg.median_imputation cfg.mean_imputation cfg.mode_imputation
  let d3 ← if idict.isEmpty then pure d2 else DataCleaner.impute_values d2 idict
  let d4 ← match cfg.outlier_columns with
    | some ocs =>
      ocs.foldlM (fun acc oc => OutlierDetector.remove_outliers acc oc.1 oc.2.1 oc.2.2) d3
    | none => pure d3
  let d5 := match cfg.categorical_encoding with
    | some l => l.foldl (fun acc p => DataEncoder.encode_categorical acc p.1 p.2) d4
    | none => d4
  let d6 := match cfg.feature_scaling with
    | some l => l.foldl (fun acc p => DataEncoder.scale_features acc p.1 p.2) d5
    | none => d5
  pure d6

/-- The orchestrator state: `self.data`, `None` until `load_data`. -/
structure PState where
  data : Option Table
deriving DecidableEq

/-- `DataPreprocessor.preprocess`: with no data loaded, returns None.
Otherwise runs the stages on a working copy inside `try`; on success
stores and returns the result, while any raised error is caught,
logged, and surfaced as a single `None` — `self.data` is only assigned
on the success path, so a failed run leaves it untouched. -/
def DataPreprocessor.preprocess (st : PState) (cfg : Config) : Option Table × PState :=
  match st.data with
  | none => (none, st)
  | some d =>
    match runSteps cfg d with
    | .ok r => (some r, ⟨some r⟩)
    | .error _ => (none, st)

-- ### Example tables used by the concrete counterexamples and witnesses

/-- Ten-row table: column X is 40% missing, column Y is 10% missing. -/
def naExampleTable : Table :=
  [("X", [.na, .na, .na, .na, .num 1, .num 2, .num 3, .num 4, .num 5, .num 6]),
   ("Y", [.na, .num 1, .num 2, .num 3, .num 4, .num 5, .num 6, .num 7, .num 8, .num 9])]

/-!  ## Claims about `drop_na_columns`  -/

/-- **C2, counterexample.**  On the spec's own scenario table (column X
40% missing, column Y 10% missing), `drop_na_columns` with threshold
`0.3` drops *both* columns, because the source compares the threshold
against `isna().mean() * 100`, a 0–100 percentage; the claim says Y
(10% missing) is kept. -/
theorem na_threshold_fraction_drops_both :
    missingPct [Value.na, .na, .na, .na, .num 1, .num 2, .num 3, .num 4, .num 5, .num 6] = 40
    ∧ missingPct [Value.na, .num 1, .num 2, .num 3, .num 4, .num 5, .num 6, .num 7, .num 8, .num 9] = 10
    ∧ DataCleaner.drop_na_columns naExampleTable (3/10) = []
    ∧ hasCol (DataCleaner.drop_na_columns naExampleTable (3/10)) "Y" = false := by
  refine ⟨by norm_num [missingPct, countNA, isNA], by norm_num [missingPct, countNA, isNA], ?_, ?_⟩ <;>
    norm_num [DataCleaner.drop_na_columns, naExampleTable, missingPct, countNA, isNA, hasCol,
      List.filter, List.any]

/-- **C2, amended.**  `drop_na_columns` treats its threshold as a 0–100
percentage: a column survives exactly when its missing percentage
(missing fraction × 100) does not strictly exceed the threshold, so the
spec's scenario holds with `na_threshold = 30`, not `0.3`. -/
theorem drop_na_columns_keeps_iff_pct_le (t : Table) (threshold : ℚ) (p : String × Col) :
    p ∈ DataCleaner.drop_na_columns t threshold ↔ p ∈ t ∧ missingPct p.2 ≤ threshold := by
  simp [DataCleaner.drop_na_columns, List.mem_filter]

/-!  ## Claims about `remove_outliers`  -/

theorem numsOf_map_num (vs : List ℚ) : numsOf (vs.map Value.num) = vs := by
  induction vs with
  | nil => rfl
  | cons x xs ih => simp [numsOf] at ih ⊢; exact ih

theorem numericDtype_map_num (vs : List ℚ) : numericDtype (vs.map Value.num) = true := by
  simp [numericDtype, List.all_eq_true]

theorem applyMask_map_self (keep : Value → Bool) (c : Col) :
    applyMask (c.map keep) c = c.filter keep := by
  induction c with
  | nil => rfl
  | cons x xs ih =>
    by_cases h : keep x = true <;> simp [applyMask, List.filter, h, ih]

theorem getCol_filterRowsBy (t : Table) (keep : List Bool) (name : String) :
    getCol (filterRowsBy t keep) name = (getCol t name).map (applyMask keep) := by
  induction t with
  | nil => rfl
  | cons p ps ih =>
    by_cases h : p.1 = name
    · simp [getCol, filterRowsBy, List.find?, h]
    · simp only [getCol, filterRowsBy, List.map_cons] at ih ⊢
      rw [List.find?_cons_of_neg _ (by simpa using h), List.find?_cons_of_neg _ (by simpa using h)]
      exact ih

/-- **C1, amended.**  An unknown outlier method name is *silently
ignored*: `remove_outliers` falls through its method dispatch (there is
no else branch raising an error) and returns the table unchanged, so
the pipeline continues instead of aborting. -/
theorem remove_outliers_unknown_method_noop (t : Table) (column method : String) (θ : ℚ)
    (h1 : method ≠ "iqr") (h2 : method ≠ "zscore")
    (h3 : method ≠ "iforest") (h4 : method ≠ "robust_cov") :
    OutlierDetector.remove_outliers t column method θ = .ok t := by
  simp [OutlierDetector.remove_outliers, h1, h2, h3, h4]

/-- Witness for the amended C1 theorem at the method name "bogus". -/
theorem remove_outliers_unknown_method_noop_witness :
    OutlierDetector.remove_outliers [("a", [Value.num 1])] "a" "bogus" (3/2) =
      .ok [("a", [Value.num 1])] :=
  remove_outliers_unknown_method_noop _ _ _ _ (by decide) (by decide) (by decide) (by decide)


/-- **C3.**  IQR outlier removal keeps, in the fitted column, exactly
the values within `[Q1 − t·IQR, Q3 + t·IQR]` (quartiles of the column
before removal), in their original order: every kept row satisfies the
bound and every removed row violates it. -/
theorem remove_outliers_iqr_bound_characterization
    (t : Table) (column : String) (vs : List ℚ) (θ q1 q3 : ℚ)
    (hcol : getCol t column = some (vs.map Value.num))
    (hq1 : quantile vs (1/4) = some q1)
    (hq3 : quantile vs (3/4) = some q3) :
    ∃ t₁, OutlierDetector.remove_outliers t column "iqr" θ = .ok t₁
      ∧ getCol t₁ column =
          some ((vs.filter
            (fun x => decide (q1 - θ * (q3 - q1) ≤ x ∧ x ≤ q3 + θ * (q3 - q1)))).map Value.num)
      ∧ ∀ x ∈ vs,
          x ∈ vs.filter (fun x => decide (q1 - θ * (q3 - q1) ≤ x ∧ x ≤ q3 + θ * (q3 - q1)))
            ↔ q1 - θ * (q3 - q1) ≤ x ∧ x ≤ q3 + θ * (q3 - q1) := by
  have houts : iqrOutlierVals vs θ =
      vs.filter (fun x => decide (x < q1 - θ * (q3 - q1))) ++
        vs.filter (fun x => decide (q3 + θ * (q3 - q1) < x)) := by
    unfold iqrOutlierVals
    rw [hq1, hq3]
  have hrun : OutlierDetector.remove_outliers t column "iqr" θ =
      .ok (filterRowsBy t
        ((vs.map Value.num).map (fun v => !(vIsin v (iqrOutlierVals vs θ))))) := by
    simp [OutlierDetector.remove_outliers, hcol, numericDtype_map_num, numsOf_map_num]
  refine ⟨_, hrun, ?_, ?_⟩
  · rw [getCol_filterRowsBy, hcol, Option.map_some', applyMask_map_self, List.filter_map]
    refine congrArg _ (congrArg _ (List.filter_congr ?_))
    intro x hx
    have hmem : x ∈ iqrOutlierVals vs θ ↔
        (x < q1 - θ * (q3 - q1) ∨ q3 + θ * (q3 - q1) < x) := by
      rw [houts]
      simp [List.mem_filter, hx]
    have hnot : (¬(x < q1 - θ * (q3 - q1) ∨ q3 + θ * (q3 - q1) < x)) ↔
        (q1 - θ * (q3 - q1) ≤ x ∧ x ≤ q3 + θ * (q3 - q1)) := by
      simp [not_or, not_lt]
    calc (fun v => !(vIsin v (iqrOutlierVals vs θ))) (Value.num x)
        = !(decide (x ∈ iqrOutlierVals vs θ)) := by
          simp [vIsin, List.elem_eq_mem]
      _ = decide (¬(x ∈ iqrOutlierVals vs θ)) := by simp
      _ = decide (q1 - θ * (q3 - q1) ≤ x ∧ x ≤ q3 + θ * (q3 - q1)) := by
          rw [decide_eq_decide]
          rw [hmem, hnot]
  · intro x hx
    simp [List.mem_filter, hx]

/-!  ## Claims about `drop_duplicates`  -/

theorem dropDupSeen_sublist (seen : List Row) (rows : List Row) :
    (dropDupSeen seen rows).Sublist rows := by
  induction rows generalizing seen with
  | nil => simp [dropDupSeen]
  | cons r rs ih =>
    by_cases h : r ∈ seen
    · simp only [dropDupSeen, if_pos h]
      exact (ih seen).cons r
    · simp only [dropDupSeen, if_neg h]
      exact (ih (r :: seen)).cons₂ r

theorem mem_dropDupSeen (seen : List Row) (rows : List Row) (r : Row) :
    r ∈ dropDupSeen seen rows ↔ r ∈ rows ∧ r ∉ seen := by
  induction rows generalizing seen with
  | nil => simp [dropDupSeen]
  | cons a rs ih =>
    by_cases h : a ∈ seen
    · simp only [dropDupSeen, if_pos h, ih, List.mem_cons]
      constructor
      · rintro ⟨hr, hs⟩
        exact ⟨Or.inr hr, hs⟩
      · rintro ⟨hr | hr, hs⟩
        · exact absurd (hr ▸ h) hs
        · exact ⟨hr, hs⟩
    · simp only [dropDupSeen, if_neg h, List.mem_cons, ih, List.mem_cons]
      constructor
      · rintro (rfl | ⟨hr, hs⟩)
        · exact ⟨Or.inl rfl, h⟩
        · exact ⟨Or.inr hr, fun hx => hs (Or.inr hx)⟩
      · rintro ⟨rfl | hr, hs⟩
        · exact Or.inl rfl
        · by_cases hra : r = a
          · exact Or.inl hra
          · exact Or.inr ⟨hr, fun hx => (hx.elim hra hs)⟩

theorem nodup_dropDupSeen (seen : List Row) (rows : List Row) :
    (dropDupSeen seen rows).Nodup := by
  induction rows generalizing seen with
  | nil => simp [dropDupSeen]
  | cons a rs ih =>
    by_cases h : a ∈ seen
    · simp only [dropDupSeen, if_pos h]
      exact ih seen
    · simp only [dropDupSeen, if_neg h]
      refine List.Nodup.cons ?_ (ih (a :: seen))
      intro hmem
      exact ((mem_dropDupSeen _ _ _).mp hmem).2 (List.mem_cons_self a seen)

theorem dropDupSeen_eq_self (rows : List Row) (seen : List Row)
    (h1 : rows.Nodup) (h2 : ∀ r ∈ rows, r ∉ seen) :
    dropDupSeen seen rows = rows := by
  induction rows generalizing seen with
  | nil => simp [dropDupSeen]
  | cons a rs ih =>
    have ha : a ∉ seen := h2 a (List.mem_cons_self a rs)
    simp only [dropDupSeen, if_neg ha]
    refine congrArg _ (ih (a :: seen) (List.Nodup.of_cons h1) ?_)
    intro r hr hmem
    rcases List.mem_cons.mp hmem with rfl | hseen
    · exact (List.nodup_cons.mp h1).1 hr
    · exact h2 r (List.mem_cons_of_mem a hr) hseen

/-- **C4.**  `drop_duplicates` removes exactly the rows that duplicate
an earlier row: the result is a subsequence of the input (first
occurrences, order preserved), has no duplicate left, keeps every
distinct row value, and applying it twice removes nothing further
(idempotence). -/
theorem drop_duplicates_idempotent_first_occurrence (rows : List Row) :
    DataCleaner.drop_duplicates (DataCleaner.drop_duplicates rows) =
        DataCleaner.drop_duplicates rows
      ∧ (DataCleaner.drop_duplicates rows).Sublist rows
      ∧ (DataCleaner.drop_duplicates rows).Nodup
      ∧ ∀ r, r ∈ DataCleaner.drop_duplicates rows ↔ r ∈ rows := by
  refine ⟨?_, dropDupSeen_sublist [] rows, nodup_dropDupSeen [] rows, ?_⟩
  · exact dropDupSeen_eq_self _ [] (nodup_dropDupSeen [] rows) (by simp)
  · intro r
    simp [DataCleaner.drop_duplicates, mem_dropDupSeen]

/-!  ## Claims about the standalone Imputer  -/

/-- **C7, counterexample.**  `fill_mode` raises even though its claimed
precondition holds: on a present column whose cells are all missing,
`mode()` is empty and the `[0]` subscript raises. -/
theorem fill_mode_error_on_present_column :
    hasCol [("a", [Value.na])] "a" = true
      ∧ isErr (DataImputation.fill_mode [("a", [Value.na])] "a") = true := by
  constructor
  · rfl
  · rfl

/-- **C7, amended.**  `fill_mean` and `fill_median` raise exactly when
the column is absent or non-numeric; `fill_mode` raises exactly when
the column is absent or has no non-missing value (empty mode), and no
error is raised otherwise. -/
theorem imputer_error_characterization (t : Table) (column : String) :
    (isErr (DataImputation.fill_mean t column) = true ↔
        getCol t column = none ∨ ∃ c, getCol t column = some c ∧ numericDtype c = false)
      ∧ (isErr (DataImputation.fill_median t column) = true ↔
        getCol t column = none ∨ ∃ c, getCol t column = some c ∧ numericDtype c = false)
      ∧ (isErr (DataImputation.fill_mode t column) = true ↔
        getCol t column = none ∨ ∃ c, getCol t column = some c ∧ modeValue c = none) := by
  rcases hc : getCol t column with _ | c
  · simp [DataImputation.fill_mean, DataImputation.fill_median, DataImputation.fill_mode,
      hc, isErr]
  · refine ⟨?_, ?_, ?_⟩
    · by_cases hn : numericDtype c <;>
        simp [DataImputation.fill_mean, hc, hn, isErr]
    · by_cases hn : numericDtype c <;>
        simp [DataImputation.fill_median, hc, hn, isErr]
    · rcases hm : modeValue c with _ | m <;>
        simp [DataImputation.fill_mode, hc, hm, isErr]

/-!  ## Claims about `fill_median` / `fill_mean`  -/

theorem length_insertLe (x : ℚ) (l : List ℚ) : (insertLe x l).length = l.length + 1 := by
  induction l with
  | nil => rfl
  | cons y ys ih => by_cases h : x ≤ y <;> simp [insertLe, h, ih]

theorem length_sortQ (xs : List ℚ) : (sortQ xs).length = xs.length := by
  induction xs with
  | nil => rfl
  | cons x l ih => simp [sortQ, length_insertLe] at ih ⊢; simp [ih]

theorem medianQ_isSome (xs : List ℚ) (h : xs ≠ []) : ∃ m, medianQ xs = some m := by
  have hl : ¬((sortQ xs).length = 0) := by
    rw [length_sortQ]
    exact fun hh => h (List.length_eq_zero.mp hh)
  simp only [medianQ, if_neg hl]
  split
  · exact ⟨_, rfl⟩
  · exact ⟨_, rfl⟩

theorem countNA_fillnaQ (c : Col) (m : ℚ) : countNA (fillnaQ c (some m)) = 0 := by
  induction c with
  | nil => rfl
  | cons w ws ih =>
    cases w <;> simpa [fillnaQ, countNA, List.filter, isNA] using ih

theorem length_fillnaQ (c : Col) (m : ℚ) : (fillnaQ c (some m)).length = c.length := by
  simp [fillnaQ]

theorem fillnaQ_getD (c : Col) (m : ℚ) (i : ℕ)
    (h : isNA (c.getD i Value.na) = false) :
    (fillnaQ c (some m)).getD i Value.na = c.getD i Value.na := by
  have hgd : ∀ (l : Col), l.getD i Value.na = (l.get? i).getD Value.na := fun _ => rfl
  cases hlt : c.get? i with
  | none =>
    rw [List.get?_eq_getElem?] at hlt
    rw [hgd, hgd]
    simp [fillnaQ, List.getElem?_map, hlt]
  | some w =>
    have hw : isNA w = false := by
      rwa [hgd, hlt] at h
    rw [List.get?_eq_getElem?] at hlt
    rw [hgd, hgd]
    simp [fillnaQ, List.getElem?_map, hlt, hw]

theorem getCol_setCol (t : Table) (name : String) (x : Col) (c : Col)
    (h : getCol t name = some c) : getCol (setCol t name x) name = some x := by
  induction t with
  | nil => simp [getCol] at h
  | cons p ps ih =>
    by_cases hp : p.1 = name
    · simp only [setCol, List.map_cons, if_pos hp, getCol]
      rw [List.find?_cons_of_pos _ (by simpa using hp)]
      rfl
    · have h' : getCol ps name = some c := by
        unfold getCol at h
        rwa [List.find?_cons_of_neg _ (by simpa using hp)] at h
      have hrec := ih h'
      unfold getCol setCol at hrec ⊢
      simp only [List.map_cons, if_neg hp]
      rw [List.find?_cons_of_neg _ (by simpa using hp)]
      exact hrec

/-- **C6, counterexample.**  A numeric column that is entirely missing
(two missing cells, so "at least one missing value" holds and the dtype
is numeric) is returned unchanged by `fill_median`: the median of an
all-missing column is NaN and `fillna(NaN)` fills nothing, so the
column still has two missing values afterwards, not zero. -/
theorem fill_median_all_missing_stays_missing :
    numericDtype [Value.na, Value.na] = true
      ∧ 1 ≤ countNA [Value.na, Value.na]
      ∧ DataImputation.fill_median [("a", [Value.na, Value.na])] "a" =
          .ok [("a", [Value.na, Value.na])]
      ∧ countNA [Value.na, Value.na] = 2 := by
  refine ⟨rfl, by decide, rfl, rfl⟩

/-- **C6, amended.**  For a numeric column with at least one
*non-missing* value, `fill_median` and `fill_mean` succeed, the
resulting column has zero missing values, and every non-missing cell
is unchanged (an all-missing column, by contrast, is returned
unchanged, as the counterexample shows). -/
theorem fill_median_mean_fill_all_missing
    (t : Table) (column : String) (c : Col)
    (h : getCol t column = some c) (hnum : numericDtype c = true)
    (hobs : numsOf c ≠ []) :
    ∃ t₁ t₂ c₁ c₂,
      DataImputation.fill_median t column = .ok t₁
      ∧ DataImputation.fill_mean t column = .ok t₂
      ∧ getCol t₁ column = some c₁ ∧ getCol t₂ column = some c₂
      ∧ countNA c₁ = 0 ∧ countNA c₂ = 0
      ∧ c₁.length = c.length ∧ c₂.length = c.length
      ∧ (∀ i, isNA (c.getD i Value.na) = false →
          c₁.getD i Value.na = c.getD i Value.na ∧ c₂.getD i Value.na = c.getD i Value.na) := by
  obtain ⟨md, hmd⟩ := medianQ_isSome (numsOf c) hobs
  have hlen : ¬((numsOf c).length = 0) := fun hh => hobs (List.length_eq_zero.mp hh)
  have hmn : meanQ (numsOf c) = some ((numsOf c).sum / ((numsOf c).length : ℚ)) := by
    simp [meanQ, hlen]
  refine ⟨setCol t column (fillnaQ c (medianQ (numsOf c))),
    setCol t column (fillnaQ c (meanQ (numsOf c))),
    fillnaQ c (medianQ (numsOf c)), fillnaQ c (meanQ (numsOf c)),
    ?_, ?_, getCol_setCol t column _ c h, getCol_setCol t column _ c h,
    ?_, ?_, ?_, ?_, ?_⟩
  · simp [DataImputation.fill_median, h, hnum]
  · simp [DataImputation.fill_mean, h, hnum]
  · rw [hmd]; exact countNA_fillnaQ c md
  · rw [hmn]; exact countNA_fillnaQ c _
  · rw [hmd]; exact length_fillnaQ c md
  · rw [hmn]; exact length_fillnaQ c _
  · intro i hi
    constructor
    · rw [hmd]; exact fillnaQ_getD c md i hi
    · rw [hmn]; exact fillnaQ_getD c _ i hi

/-- Witness for the amended C6 theorem on the column `[1, NA]`. -/
theorem fill_median_mean_fill_all_missing_witness :
    ∃ t₁ t₂ c₁ c₂,
      DataImputation.fill_median [("a", [Value.num 1, Value.na])] "a" = .ok t₁
      ∧ DataImputation.fill_mean [("a", [Value.num 1, Value.na])] "a" = .ok t₂
      ∧ getCol t₁ "a" = some c₁ ∧ getCol t₂ "a" = some c₂
      ∧ countNA c₁ = 0 ∧ countNA c₂ = 0
      ∧ c₁.length = ([Value.num 1, Value.na] : Col).length
      ∧ c₂.length = ([Value.num 1, Value.na] : Col).length
      ∧ (∀ i, isNA (([Value.num 1, Value.na] : Col).getD i Value.na) = false →
          c₁.getD i Value.na = ([Value.num 1, Value.na] : Col).getD i Value.na
          ∧ c₂.getD i Value.na = ([Value.num 1, Value.na] : Col).getD i Value.na) :=
  fill_median_mean_fill_all_missing [("a", [Value.num 1, Value.na])] "a"
    [Value.num 1, Value.na] (by decide) (by decide) (by decide)

/-!  ## Claims about defensive copying of the caller's table  -/

theorem heapRead_append_left (h : Heap) (l : Heap) (r : ℕ) (hr : r < h.length) :
    heapRead (h ++ l) r = heapRead h r := by
  unfold heapRead
  rw [List.getD_eq_getElem?_getD, List.getD_eq_getElem?_getD, List.getElem?_append_left hr]

theorem heapRead_set_ne (h : Heap) (n : ℕ) (t : Table) (r : ℕ) (hne : n ≠ r) :
    heapRead (h.set n t) r = heapRead h r := by
  unfold heapRead
  rw [List.getD_eq_getElem?_getD, List.getD_eq_getElem?_getD, List.getElem?_set_ne hne]

/-- **C5, counterexample.**  The Encoder does *not* copy defensively:
`__init__` aliases the caller's object, and one-hot encoding then drops
the original column on it in place, so after `encode_categorical` the
DataFrame the caller passed in has changed. -/
theorem encoder_mutates_caller_table :
    (aliasInit [[("a", [Value.str "x"])]] 0).1 = 0
      ∧ heapRead (DataEncoder.encode_categorical_at [[("a", [Value.str "x"])]] 0 "a" "one_hot") 0
          ≠ heapRead [[("a", [Value.str "x"])]] 0 := by
  exact ⟨rfl, by decide⟩

/-- **C5, amended.**  Only the Cleaner copies its input defensively
(`data.copy()` in `__init__`); its in-place operations therefore leave
the caller's DataFrame unchanged.  The Outlier Detector aliases the
caller's object without copying, but its removals rebind `self.data`
to a fresh object rather than mutating, so the caller's DataFrame is
also left unchanged there.  The Encoder and the Imputer alias the
caller's object and mutate it in place (see the counterexample). -/
theorem cleaner_and_outlier_preserve_caller_table
    (h : Heap) (r : ℕ) (θ : ℚ) (column method : String)
    (hr : r < h.length) :
    heapRead
        (DataCleaner.drop_na_columns_at ((DataCleaner.mk h r).2) ((DataCleaner.mk h r).1) θ) r
      = heapRead h r
    ∧ ∀ n h₂, OutlierDetector.remove_outliers_at h r column method θ = .ok (n, h₂) →
        heapRead h₂ r = heapRead h r := by
  constructor
  · unfold DataCleaner.mk DataCleaner.drop_na_columns_at heapWrite
    rw [heapRead_set_ne _ _ _ _ (Nat.ne_of_gt hr)]
    exact heapRead_append_left h _ r hr
  · intro n h₂ heq
    unfold OutlierDetector.remove_outliers_at at heq
    cases hro : OutlierDetector.remove_outliers (heapRead h r) column method θ with
    | error e => rw [hro] at heq; simp [Except.map] at heq
    | ok t₁ =>
      rw [hro] at heq
      simp only [Except.map, Except.ok.injEq, Prod.mk.injEq] at heq
      rw [← heq.2]
      exact heapRead_append_left h _ r hr

/-- Witness for the amended C5 theorem on a one-table heap. -/
theorem cleaner_and_outlier_preserve_caller_table_witness :
    heapRead
        (DataCleaner.drop_na_columns_at
          ((DataCleaner.mk [[("a", [Value.num 1, Value.na])]] 0).2)
          ((DataCleaner.mk [[("a", [Value.num 1, Value.na])]] 0).1) 50) 0
      = heapRead [[("a", [Value.num 1, Value.na])]] 0
    ∧ ∀ n h₂,
        OutlierDetector.remove_outliers_at [[("a", [Value.num 1, Value.na])]] 0 "a" "zscore" 3 =
          .ok (n, h₂) →
        heapRead h₂ 0 = heapRead [[("a", [Value.num 1, Value.na])]] 0 :=
  cleaner_and_outlier_preserve_caller_table [[("a", [Value.num 1, Value.na])]] 0 50 "a" "zscore"
    (by decide)

/-!  ## Claims about the orchestrator's failure handling  -/

/-- **C9.**  If any stage of the orchestrated pipeline raises a fatal
error, `preprocess` surfaces a single absence-of-result (None) and the
orchestrator's stored dataset is exactly the loaded dataset, untouched
by the failed run (`self.data` is only assigned on the success path). -/
theorem preprocess_error_surfaces_none
    (st : PState) (cfg : Config) (d : Table) (e : String)
    (hd : st.data = some d) (he : runSteps cfg d = .error e) :
    DataPreprocessor.preprocess st cfg = (none, st) := by
  cases st with
  | mk data =>
    simp only [PState.mk.injEq] at hd ⊢
    subst hd
    simp [DataPreprocessor.preprocess, he]

/-- Witness for the C9 theorem: imputing the mean of a text column is a
raised TypeError inside the cleaning stage, and the pipeline run on a
loaded one-column text table returns None and leaves the state as
loaded. -/
theorem preprocess_error_surfaces_none_witness :
    DataPreprocessor.preprocess ⟨some [("name", [Value.str "x"])]⟩
        ⟨none, none, [], ["name"], [], none, none, none⟩
      = (none, ⟨some [("name", [Value.str "x"])]⟩) :=
  preprocess_error_surfaces_none ⟨some [("name", [Value.str "x"])]⟩
    ⟨none, none, [], ["name"], [], none, none, none⟩
    [("name", [Value.str "x"])]
    "TypeError: could not compute the mean of a non-numeric column" rfl rfl

/-- **C1, counterexample.**  The unknown outlier method "bogus" does
*not* abort the pipeline: `remove_outliers` has no else branch, so it
returns the table unchanged, and the orchestrator completes the run
and returns a (fully processed) table instead of a failure outcome. -/
theorem bogus_method_pipeline_returns_table :
    OutlierDetector.remove_outliers [("a", [Value.num 1])] "a" "bogus" (3/2) =
        .ok [("a", [Value.num 1])]
      ∧ DataPreprocessor.preprocess ⟨some [("a", [Value.num 1])]⟩
          ⟨none, none, [], [], [], some [("a", "bogus", 3/2)], none, none⟩
        = (some [("a", [Value.num 1])], ⟨some [("a", [Value.num 1])]⟩) := by
  exact ⟨rfl, rfl⟩

/-!  ## Claims about the merged imputation dict  -/

theorem lookupStrat_cons_pos (q : String × String) (rest : List (String × String))
    {a : String} (hq : q.1 = a) : lookupStrat (q :: rest) a = some q.2 := by
  unfold lookupStrat
  rw [List.find?_cons_of_pos _ (by simp [hq])]
  rfl

theorem lookupStrat_cons_neg (q : String × String) (rest : List (String × String))
    {a : String} (hq : q.1 ≠ a) : lookupStrat (q :: rest) a = lookupStrat rest a := by
  unfold lookupStrat
  rw [List.find?_cons_of_neg _ (by simp [hq])]

theorem lookupStrat_mapReplace (d : List (String × String)) (k v a : String) :
    lookupStrat (d.map (fun p => if p.1 == k then (k, v) else p)) a =
      if a = k then (if d.any (fun p => p.1 == k) then some v else none)
      else lookupStrat d a := by
  induction d with
  | nil =>
    by_cases hak : a = k <;> simp [lookupStrat, hak]
  | cons p ps ih =>
    rw [List.map_cons]
    by_cases hpk : p.1 = k
    · have hif : (if (p.1 == k) = true then (k, v) else p) = (k, v) := by simp [hpk]
      rw [hif]
      by_cases hak : a = k
      · rw [lookupStrat_cons_pos _ _ hak.symm]
        simp [hak, List.any_cons, hpk]
      · have hka : (k, v).1 ≠ a := fun hh => hak hh.symm
        rw [lookupStrat_cons_neg _ _ hka, ih, if_neg hak]
        have hpa : p.1 ≠ a := by rw [hpk]; exact fun hh => hak hh.symm
        rw [lookupStrat_cons_neg _ _ hpa, if_neg hak]
    · have hif : (if (p.1 == k) = true then (k, v) else p) = p := by simp [hpk]
      rw [hif]
      by_cases hpa : p.1 = a
      · have hak : a ≠ k := fun hh => hpk (hpa.trans hh)
        rw [if_neg hak, lookupStrat_cons_pos _ _ hpa, lookupStrat_cons_pos _ _ hpa]
      · rw [lookupStrat_cons_neg _ _ hpa, ih, lookupStrat_cons_neg _ _ hpa]
        have hb : (p.1 == k) = false := by simp [hpk]
        by_cases hak : a = k
        · rw [if_pos hak, if_pos hak, List.any_cons, hb, Bool.false_or]
        · rw [if_neg hak, if_neg hak]

theorem lookupStrat_append_single (d : List (String × String)) (k v a : String)
    (hk : d.any (fun p => p.1 == k) = false) :
    lookupStrat (d ++ [(k, v)]) a = if a = k then some v else lookupStrat d a := by
  induction d with
  | nil =>
    by_cases hak : a = k
    · simp [lookupStrat, hak]
    · simp [lookupStrat, hak, Ne.symm hak]
  | cons p ps ih =>
    rw [List.any_cons, Bool.or_eq_false_iff] at hk
    have hpk : ¬(p.1 = k) := by simpa using hk.1
    by_cases hpa : p.1 = a
    · have hak : a ≠ k := fun hh => hpk (hpa.trans hh)
      rw [List.cons_append, lookupStrat_cons_pos _ _ hpa, if_neg hak,
        lookupStrat_cons_pos _ _ hpa]
    · rw [List.cons_append, lookupStrat_cons_neg _ _ hpa, ih hk.2,
        lookupStrat_cons_neg _ _ hpa]

theorem lookupStrat_upsert (d : List (String × String)) (k v a : String) :
    lookupStrat (upsert d k v) a = if a = k then some v else lookupStrat d a := by
  unfold upsert
  by_cases hany : d.any (fun p => p.1 == k) = true
  · rw [if_pos hany, lookupStrat_mapReplace, hany]
    simp
  · rw [Bool.not_eq_true] at hany
    rw [if_neg (by simp [hany]), lookupStrat_append_single d k v a hany]

theorem lookupStrat_insertAll (cols : List String) (d : List (String × String))
    (strat a : String) :
    lookupStrat (insertAll d cols strat) a =
      if a ∈ cols then some strat else lookupStrat d a := by
  induction cols generalizing d with
  | nil => simp [insertAll]
  | cons c cs ih =>
    unfold insertAll at ih ⊢
    rw [List.foldl_cons, ih]
    by_cases hacs : a ∈ cs
    · simp [hacs]
    · rw [lookupStrat_upsert]
      by_cases hac : a = c <;> simp [hacs, hac]

theorem keys_mapReplace (d : List (String × String)) (k v : String) :
    (d.map (fun p => if p.1 == k then (k, v) else p)).map Prod.fst = d.map Prod.fst := by
  induction d with
  | nil => rfl
  | cons p ps ih =>
    by_cases hpk : p.1 = k
    · simp only [List.map_cons]
      rw [if_pos (by simp [hpk]), ih, hpk]
    · simp only [List.map_cons]
      rw [if_neg (by simp [hpk]), ih]

theorem keysNodup_upsert (d : List (String × String)) (k v : String)
    (h : (d.map Prod.fst).Nodup) : ((upsert d k v).map Prod.fst).Nodup := by
  unfold upsert
  by_cases hany : d.any (fun p => p.1 == k) = true
  · rw [if_pos hany, keys_mapReplace]
    exact h
  · rw [Bool.not_eq_true] at hany
    rw [if_neg (by simp [hany]), List.map_append]
    refine List.Nodup.append h (List.nodup_singleton k) ?_
    intro a ha hk'
    rw [List.mem_map] at ha
    obtain ⟨p, hpd, hpa⟩ := ha
    simp only [List.map_cons, List.map_nil, List.mem_singleton] at hk'
    rw [List.any_eq_false] at hany
    exact absurd (by simp [hpa, hk'] : (p.1 == k) = true) (by simpa using hany p hpd)

theorem keysNodup_insertAll (cols : List String) (d : List (String × String)) (strat : String)
    (h : (d.map Prod.fst).Nodup) : ((insertAll d cols strat).map Prod.fst).Nodup := by
  induction cols generalizing d with
  | nil => exact h
  | cons c cs ih =>
    unfold insertAll at ih ⊢
    rw [List.foldl_cons]
    exact ih _ (keysNodup_upsert d c strat h)

/-- **C10.**  The orchestrator's merged imputation dict maps every
column to exactly one strategy (its keys are unique, so `impute_values`
applies one strategy per column), resolved by the fixed precedence mode
over mean over median — the last-merged section wins. -/
theorem imputation_dict_precedence
    (medianCols meanCols modeCols : List String) (column : String) :
    lookupStrat (imputationDict medianCols meanCols modeCols) column =
      (if column ∈ modeCols then some "mode"
       else if column ∈ meanCols then some "mean"
       else if column ∈ medianCols then some "median" else none)
    ∧ ((imputationDict medianCols meanCols modeCols).map Prod.fst).Nodup := by
  constructor
  · unfold imputationDict
    rw [lookupStrat_insertAll, lookupStrat_insertAll, lookupStrat_insertAll]
    by_cases h1 : column ∈ modeCols <;> by_cases h2 : column ∈ meanCols <;>
      by_cases h3 : column ∈ medianCols <;> simp [h1, h2, h3, lookupStrat]
  · exact keysNodup_insertAll _ _ _
      (keysNodup_insertAll _ _ _ (keysNodup_insertAll _ _ _ (by simp)))

/-!  ## Claims about one-hot encoding  -/

theorem map_fst_filter_ne (t : Table) (column : String) :
    (t.filter (fun p => !(p.1 == column))).map Prod.fst
      = (t.map Prod.fst).filter (fun n => !(n == column)) := by
  induction t with
  | nil => rfl
  | cons p ps ih =>
    by_cases hp : p.1 = column <;> simp [List.filter_cons, hp, ih]

theorem sum_indicator_eq_count (x : Value) (l : List Value) :
    (l.map (fun v => if x = v then (1 : ℚ) else 0)).sum = (l.count x : ℚ) := by
  induction l with
  | nil => simp
  | cons a as ih =>
    rw [List.map_cons, List.sum_cons, ih, List.count_cons]
    by_cases h : a = x
    · rw [if_pos (by simp [h] : x = a), if_pos (by simp [h] : (a == x) = true)]
      push_cast
      ring
    · rw [if_neg (fun hh => h hh.symm), if_neg (by simp [h] : ¬((a == x) = true))]
      push_cast
      ring

theorem numAt_indicator (c : Col) (v : Value) (i : ℕ) (hi : i < c.length) :
    numAt (c.map (fun w => if w = v then Value.num 1 else Value.num 0)) i
      = if c.getD i Value.na = v then (1 : ℚ) else 0 := by
  have hmlen : i < (c.map (fun w => if w = v then Value.num 1 else Value.num 0)).length := by
    simpa using hi
  have h1 : (c.map (fun w => if w = v then Value.num 1 else Value.num 0)).getD i Value.na
      = if c.getD i Value.na = v then Value.num 1 else Value.num 0 := by
    rw [List.getD_eq_getElem _ _ hmlen, List.getElem_map, List.getD_eq_getElem _ _ hi]
  unfold numAt
  rw [h1]
  by_cases hq : c.getD i Value.na = v
  · rw [if_pos hq, if_pos hq]
  · rw [if_neg hq, if_neg hq]

/-- **C8.**  One-hot encoding a column present in the table removes the
original column, adds exactly one indicator column per distinct
observed category (the surviving column names are the old ones minus
the encoded column, followed by one `column_category` name per distinct
category with no duplicate among the categories), and in every row of
the same fitted table the indicator columns sum to exactly 1. -/
theorem one_hot_encode_characterization
    (t : Table) (column : String) (c : Col)
    (h : getCol t column = some c) :
    (DataEncoder.encode_categorical t column "one_hot").map Prod.fst =
        (t.map Prod.fst).filter (fun n => !(n == column))
          ++ c.dedup.map (fun v => column ++ "_" ++ valName v)
      ∧ c.dedup.Nodup
      ∧ (∀ v, v ∈ c.dedup ↔ v ∈ c)
      ∧ ∀ i, i < c.length →
          (((DataEncoder.encode_categorical t column "one_hot").drop
              ((t.map Prod.fst).filter (fun n => !(n == column))).length).map
            (fun p => numAt p.2 i)).sum = 1 := by
  have henc : DataEncoder.encode_categorical t column "one_hot" =
      t.filter (fun p => !(p.1 == column)) ++
        c.dedup.map (fun v =>
          (column ++ "_" ++ valName v,
            c.map (fun w => if w = v then Value.num 1 else Value.num 0))) := by
    simp [DataEncoder.encode_categorical, h]
  refine ⟨?_, List.nodup_dedup c, fun v => List.mem_dedup, ?_⟩
  · rw [henc, List.map_append, map_fst_filter_ne, List.map_map]
    rfl
  · intro i hi
    rw [henc, ← map_fst_filter_ne t column, List.length_map, List.drop_left, List.map_map]
    have hx : c.getD i Value.na ∈ c.dedup := by
      rw [List.mem_dedup, List.getD_eq_getElem _ _ hi]
      exact List.getElem_mem hi
    have hmap : c.dedup.map
        ((fun p => numAt p.2 i) ∘ (fun v =>
          (column ++ "_" ++ valName v,
            c.map (fun w => if w = v then Value.num 1 else Value.num 0))))
        = c.dedup.map (fun v => if c.getD i Value.na = v then (1 : ℚ) else 0) := by
      refine List.map_eq_map_iff.mpr ?_
      intro v hv
      exact numAt_indicator c v i hi
    rw [hmap, sum_indicator_eq_count]
    rw [List.count_eq_one_of_mem (List.nodup_dedup c) hx]
    norm_num

/-- Witness for the C3 theorem on the column `[1, 2, 3, 100]` with the
default threshold 1.5: `Q1 = 7/4`, `Q3 = 109/4`, and the row with value
100 is the one removed. -/
theorem remove_outliers_iqr_bound_characterization_witness :
    ∃ t₁, OutlierDetector.remove_outliers
        [("a", [Value.num 1, Value.num 2, Value.num 3, Value.num 100])] "a" "iqr" (3/2) =
          .ok t₁
      ∧ getCol t₁ "a" =
          some ((([1, 2, 3, 100] : List ℚ).filter
            (fun x => decide (7/4 - (3/2) * (109/4 - 7/4) ≤ x
              ∧ x ≤ 109/4 + (3/2) * (109/4 - 7/4)))).map Value.num)
      ∧ ∀ x ∈ ([1, 2, 3, 100] : List ℚ),
          x ∈ ([1, 2, 3, 100] : List ℚ).filter
              (fun x => decide (7/4 - (3/2) * (109/4 - 7/4) ≤ x
                ∧ x ≤ 109/4 + (3/2) * (109/4 - 7/4)))
            ↔ 7/4 - (3/2) * (109/4 - 7/4) ≤ x ∧ x ≤ 109/4 + (3/2) * (109/4 - 7/4) :=
  remove_outliers_iqr_bound_characterization
    [("a", [Value.num 1, Value.num 2, Value.num 3, Value.num 100])] "a"
    [1, 2, 3, 100] (3/2) (7/4) (109/4)
    rfl
    (by norm_num [quantile, sortQ, insertLe, ratFloor, ratCeil,
      (by decide : Int.fdiv 3 4 = 0), (by decide : -(Int.fdiv (-3) 4) = 1)])
    (by norm_num [quantile, sortQ, insertLe, ratFloor, ratCeil,
      (by decide : Int.fdiv 9 4 = 2), (by decide : -(Int.fdiv (-9) 4) = 3),
      (by decide : Int.toNat 2 = 2), (by decide : Int.toNat 3 = 3)])

/-- Witness for the C8 theorem on the spec's department column. -/
theorem one_hot_encode_characterization_witness :
    (DataEncoder.encode_categorical
        [("dept", [Value.str "eng", Value.str "sales", Value.str "eng"])] "dept"
        "one_hot").map Prod.fst =
        (([("dept", [Value.str "eng", Value.str "sales", Value.str "eng"])] : Table).map
            Prod.fst).filter (fun n => !(n == "dept"))
          ++ ([Value.str "eng", Value.str "sales", Value.str "eng"] : Col).dedup.map
              (fun v => "dept" ++ "_" ++ valName v)
      ∧ ([Value.str "eng", Value.str "sales", Value.str "eng"] : Col).dedup.Nodup
      ∧ (∀ v, v ∈ ([Value.str "eng", Value.str "sales", Value.str "eng"] : Col).dedup
           ↔ v ∈ ([Value.str "eng", Value.str "sales", Value.str "eng"] : Col))
      ∧ ∀ i, i < ([Value.str "eng", Value.str "sales", Value.str "eng"] : Col).length →
          (((DataEncoder.encode_categorical
              [("dept", [Value.str "eng", Value.str "sales", Value.str "eng"])] "dept"
              "one_hot").drop
              ((([("dept", [Value.str "eng", Value.str "sales", Value.str "eng"])] : Table).map
                  Prod.fst).filter (fun n => !(n == "dept"))).length).map
            (fun p => numAt p.2 i)).sum = 1 :=
  one_hot_encode_characterization
    [("dept", [Value.str "eng", Value.str "sales", Value.str "eng"])] "dept"
    [Value.str "eng", Value.str "sales", Value.str "eng"] rfl
